import Mathlib

/-!
Verification development for the `Govindggupta/chess` repository: a shallow
embedding of its session/matchmaking core and of the frontend move pipeline,
with theorems settling the specification's claims.

Conventions. A board square (a two-character string such as "e4" in the
TypeScript source) is embedded as the pair of its file character code
(97 = 'a' .. 104 = 'h', the value of `square.charCodeAt(0)`) and its rank
digit (1..8, the value of `parseInt(square[1])`). The `chess.js` rules
engine and the game state it owns are external black boxes to the core and
are embedded as function parameters.

The server-side game manager (`GameManager` imported by
`src/backend/src/index.ts`) is not part of the provided sources; its
operations are modelled from the specification where a claim needs them,
and each such definition says so in its doc comment.
-/

/-- A board square: `file` is the character code of the file letter
(97..104 for a..h) and `rank` is the rank digit (1..8). This mirrors how
`translateSquareForBlack` in `ChessBoard` reads a square string:
`square.charCodeAt(0)` and `parseInt(square[1])`. -/
structure Sq where
  file : Nat
  rank : Nat
deriving DecidableEq

/-- Embedding of `translateSquareForBlack` (ChessBoard component, both
variants): `newFile = String.fromCharCode(104 - (file - 97))` and
`newRank = 9 - rank`. -/
def translateSquareForBlack (s : Sq) : Sq :=
  ⟨104 - (s.file - 97), 9 - s.rank⟩

/-- C10: for every square with file in a..h (char codes 97..104) and rank
in 1..8, `translateSquareForBlack` stays inside that range, and applying it
twice returns the original square. -/
theorem translateSquareForBlack_involutive (s : Sq)
    (hf1 : 97 ≤ s.file) (hf2 : s.file ≤ 104)
    (hr1 : 1 ≤ s.rank) (hr2 : s.rank ≤ 8) :
    (97 ≤ (translateSquareForBlack s).file ∧
      (translateSquareForBlack s).file ≤ 104 ∧
      1 ≤ (translateSquareForBlack s).rank ∧
      (translateSquareForBlack s).rank ≤ 8) ∧
    translateSquareForBlack (translateSquareForBlack s) = s := by
  obtain ⟨f, r⟩ := s
  simp only [translateSquareForBlack, Sq.mk.injEq] at hf1 hf2 hr1 hr2 ⊢
  refine ⟨⟨?_, ?_, ?_, ?_⟩, ?_, ?_⟩ <;> omega

/-- C10 witness: the statement instantiated at "e4" (file code 101, rank 4);
its mirror is "d5" and mirroring twice gives back "e4". -/
theorem translateSquareForBlack_involutive_witness :
    (97 ≤ (translateSquareForBlack ⟨101, 4⟩).file ∧
      (translateSquareForBlack ⟨101, 4⟩).file ≤ 104 ∧
      1 ≤ (translateSquareForBlack ⟨101, 4⟩).rank ∧
      (translateSquareForBlack ⟨101, 4⟩).rank ≤ 8) ∧
    translateSquareForBlack (translateSquareForBlack ⟨101, 4⟩) = ⟨101, 4⟩ :=
  translateSquareForBlack_involutive ⟨101, 4⟩
    (by decide) (by decide) (by decide) (by decide)

/-! ### C1: connection-close handling in `src/backend/src/index.ts` -/

/-- The two game-manager entry points invoked from `index.ts`. -/
inductive ManagerCall
  | addUser
  | removeUser
deriving DecidableEq, BEq

/-- The per-connection event-handler registrations made in
`src/backend/src/index.ts` (line 13): the only handler installed on a
connection socket is `ws.on("dissconnect", () => gameManager.removeUser(ws))`. -/
def connectionEventHandlers : List (String × ManagerCall) :=
  [("dissconnect", ManagerCall.removeUser)]

/-- Modelled from the spec: the transport layer's disconnect detection. The
`ws` WebSocket library (and the spec's `onConnectionClose` boundary) signals
a closing transport connection by emitting the event named "close"; an
EventEmitter fires only the handlers registered under exactly that name. -/
def transportCloseEvent : String := "close"

/-- The manager calls that fire when the event named `ev` is emitted on a
connection socket: EventEmitter dispatch by exact event-name match over the
registrations of `index.ts`. -/
def handlersFor (ev : String) : List ManagerCall :=
  (connectionEventHandlers.filter (fun p => p.1 == ev)).map (fun p => p.2)

/-- C1: counterexample to the claim. When the transport connection closes
(the "close" event fires), the game manager's `removeUser` is triggered
zero times, not exactly once: `index.ts` registered it under the misspelled,
never-emitted event name "dissconnect". -/
theorem removeUser_not_triggered_on_close :
    (handlersFor transportCloseEvent).count ManagerCall.removeUser = 0 := rfl

/-! ### C8, C9: the frontend move pipeline

`handleMove` of the ChessBoard component (src/unnamed/part_000, lines
40-77), the promotion-sending effect of Game.tsx (lines 92-110), and the
MOVE branch of `socket.onmessage` in Game.tsx (lines 43-81). The `chess.js`
instance is a black box: its verbose legal-move list, move-application
success, and move history appear as parameters. -/

/-- A `move` protocol message payload `{from, to, promotion?}` as sent over
the socket; also the shape of a verbose history entry's (from, to). -/
structure MoveMsg where
  fromSq : Sq
  toSq : Sq
  promotion : Option String
deriving DecidableEq

/-- One entry of `chess.moves({square: actualFrom, verbose: true})`: its
destination square and its flags, a string embedded as its list of
characters ('p' marks a promotion move). -/
structure VerboseMove where
  toSq : Sq
  flags : List Char

/-- The promotion test of `handleMove` (src/unnamed/part_000, lines 54-57):
`moves.some(move => move.flags.includes('p') && move.to === actualTo)`. -/
def isPromotionFlagged (movesFromSrc : List VerboseMove) (actualTo : Sq) : Bool :=
  movesFromSrc.any (fun m => m.flags.contains 'p' && decide (m.toSq = actualTo))

/-- The outcome of one `handleMove` call: nothing sent, the promotion
dialog opened via `setPromotion(actualFrom, actualTo)`, or a `move`
message sent on the socket. -/
inductive ClientMoveAction
  | noSend
  | promptPromotion (fromSq toSq : Sq)
  | sendMove (msg : MoveMsg)
deriving DecidableEq

/-- Embedding of `handleMove` (src/unnamed/part_000, lines 40-77). After
the same-square guard, squares are translated for Black; if the rules
engine flags (actualFrom, actualTo) as a promotion move the promotion
dialog is opened, otherwise the move is applied locally (`moveOk` is the
success of `chess.move`) and, on success, sent without a promotion field. -/
def handleMove (legalMovesFrom : Sq → List VerboseMove) (moveOk : Sq → Sq → Bool)
    (myColor : String) (fromSquare toSquare : Sq) : ClientMoveAction :=
  if fromSquare = toSquare then .noSend
  else
    let actualFrom := if myColor = "b" then translateSquareForBlack fromSquare else fromSquare
    let actualTo := if myColor = "b" then translateSquareForBlack toSquare else toSquare
    if isPromotionFlagged (legalMovesFrom actualFrom) actualTo then
      .promptPromotion actualFrom actualTo
    else if moveOk actualFrom actualTo then
      .sendMove ⟨actualFrom, actualTo, none⟩
    else .noSend

/-- Embedding of the promotion-sending effect of Game.tsx (lines 92-110):
once both a pending promotion (from, to) and a chosen piece exist, a `move`
message carrying `promotion: promotionPiece` is sent. -/
def promotionEffect (promo : Option (Sq × Sq)) (piece : Option String) : Option MoveMsg :=
  match promo, piece with
  | some (f, t), some p => some ⟨f, t, some p⟩
  | _, _ => none

/-- The full client send pipeline for one selected pair of squares: either
`handleMove` sends directly, or it opens the promotion dialog and the
effect of Game.tsx sends once a piece is picked. -/
def clientSentMessage (legalMovesFrom : Sq → List VerboseMove) (moveOk : Sq → Sq → Bool)
    (myColor : String) (fromSquare toSquare : Sq) (picked : Option String) :
    Option MoveMsg :=
  match handleMove legalMovesFrom moveOk myColor fromSquare toSquare with
  | .sendMove msg => some msg
  | .promptPromotion f t => promotionEffect (some (f, t)) picked
  | .noSend => none

/-- C8: every `move` message the client sends carries a promotion piece
exactly when the rules engine flags its (from, to) pair as a promotion
move; non-promotion moves are sent without a promotion field. -/
theorem clientSentMessage_promotion_iff
    (legalMovesFrom : Sq → List VerboseMove) (moveOk : Sq → Sq → Bool)
    (myColor : String) (fromSquare toSquare : Sq) (picked : Option String)
    (msg : MoveMsg)
    (h : clientSentMessage legalMovesFrom moveOk myColor fromSquare toSquare picked
          = some msg) :
    msg.promotion.isSome = isPromotionFlagged (legalMovesFrom msg.fromSq) msg.toSq := by
  unfold clientSentMessage handleMove at h
  by_cases hft : fromSquare = toSquare
  · simp [hft] at h
  · simp only [if_neg hft] at h
    by_cases hp :
        isPromotionFlagged
          (legalMovesFrom
            (if myColor = "b" then translateSquareForBlack fromSquare else fromSquare))
          (if myColor = "b" then translateSquareForBlack toSquare else toSquare)
    · simp only [if_pos hp] at h
      cases picked with
      | none => simp [promotionEffect] at h
      | some p =>
        simp only [promotionEffect, Option.some.injEq] at h
        subst h
        simpa using hp
    · simp only [if_neg hp] at h
      by_cases hok :
          moveOk
            (if myColor = "b" then translateSquareForBlack fromSquare else fromSquare)
            (if myColor = "b" then translateSquareForBlack toSquare else toSquare) = true
      · simp only [if_pos hok, Option.some.injEq] at h
        subst h
        simpa using hp
      · simp [hok] at h

/-- A concrete legal-move table: from e7 (= ⟨101, 7⟩) the single verbose
move goes to e8 with flags "np" (a promotion); from anywhere else, a
non-promotion move to d3. -/
def promoDemoMoves : Sq → List VerboseMove := fun f =>
  if f = ⟨101, 7⟩ then [⟨⟨101, 8⟩, ['n', 'p']⟩] else [⟨⟨100, 3⟩, ['n']⟩]

/-- C8 witness: with `promoDemoMoves`, selecting e7 then e8 as White and
picking a queen sends `{from: e7, to: e8, promotion: "q"}`, and the
message's promotion field is filled exactly because the pair is flagged. -/
theorem clientSentMessage_promotion_iff_witness :
    clientSentMessage promoDemoMoves (fun _ _ => true) "w"
        ⟨101, 7⟩ ⟨101, 8⟩ (some "q") = some ⟨⟨101, 7⟩, ⟨101, 8⟩, some "q"⟩ ∧
    (⟨⟨101, 7⟩, ⟨101, 8⟩, some "q"⟩ : MoveMsg).promotion.isSome
        = isPromotionFlagged (promoDemoMoves ⟨101, 7⟩) ⟨101, 8⟩ :=
  ⟨by decide, clientSentMessage_promotion_iff promoDemoMoves (fun _ _ => true) "w"
      ⟨101, 7⟩ ⟨101, 8⟩ (some "q") ⟨⟨101, 7⟩, ⟨101, 8⟩, some "q"⟩ (by decide)⟩

/-- The already-applied check of the MOVE branch of `socket.onmessage`
(Game.tsx lines 47-56): the last entry of `chess.history({verbose: true})`
is compared with the broadcast move on `from` and `to`. -/
def lastMoveMatches (history : List MoveMsg) (mv : MoveMsg) : Bool :=
  match history.getLast? with
  | some last => decide (last.fromSq = mv.fromSq) && decide (last.toSq = mv.toSq)
  | none => false

/-- Embedding of the MOVE branch of `socket.onmessage` (Game.tsx lines
43-81), tracking the history of the client's `chess` instance: if the last
history entry matches the broadcast move's from/to, the broadcast is
skipped; otherwise the move is applied when `chess.move(move)` succeeds
(`legalNext`), and on failure the state is left alone. -/
def onMoveBroadcast (legalNext : List MoveMsg → MoveMsg → Bool)
    (history : List MoveMsg) (mv : MoveMsg) : List MoveMsg :=
  if lastMoveMatches history mv then history
  else if legalNext history mv then history ++ [mv] else history

/-- C9: processing a legal `move` broadcast is idempotent with respect to
speculative local application. From a synced pre-broadcast history on which
the move is legal (so, chess being what it is, the previous move cannot
share the new move's from/to pair — its from-square was just vacated), the
handler produces the history with the move applied exactly once, both when
the client had not yet applied it and when it had already applied it
locally. -/
theorem onMoveBroadcast_idempotent (legalNext : List MoveMsg → MoveMsg → Bool)
    (hist0 : List MoveMsg) (mv : MoveMsg)
    (hlegal : legalNext hist0 mv = true)
    (hfresh : lastMoveMatches hist0 mv = false) :
    onMoveBroadcast legalNext hist0 mv = hist0 ++ [mv] ∧
    onMoveBroadcast legalNext (hist0 ++ [mv]) mv = hist0 ++ [mv] := by
  constructor
  · simp [onMoveBroadcast, hfresh, hlegal]
  · have hlast : (hist0 ++ [mv]).getLast? = some mv := by
      simp [List.getLast?_concat]
    simp [onMoveBroadcast, lastMoveMatches, hlast]

/-- C9 witness: broadcast of the opening move e2-e4 on an empty history,
with the move legal; the handler appends it once, and re-running the
handler on the speculatively applied history changes nothing. -/
theorem onMoveBroadcast_idempotent_witness :
    onMoveBroadcast (fun _ _ => true) [] ⟨⟨101, 2⟩, ⟨101, 4⟩, none⟩
        = [⟨⟨101, 2⟩, ⟨101, 4⟩, none⟩] ∧
    onMoveBroadcast (fun _ _ => true) [⟨⟨101, 2⟩, ⟨101, 4⟩, none⟩]
        ⟨⟨101, 2⟩, ⟨101, 4⟩, none⟩ = [⟨⟨101, 2⟩, ⟨101, 4⟩, none⟩] := by
  have h := onMoveBroadcast_idempotent (fun _ _ => true) []
    ⟨⟨101, 2⟩, ⟨101, 4⟩, none⟩ rfl (by decide)
  simpa using h

/-! ### C2, C3, C4: the Game Session state machine

Modelled from the spec: the server's `GameManager`/game-session module
(imported by `src/backend/src/index.ts` as `./GameManager.js`) is not among
the provided sources, so the Game Session of spec section 4.4 is embedded
from the spec's words. The board state and the rules engine are black
boxes: the session is parametric in a board type and in a Rules Adapter
function. -/

/-- A player color. -/
inductive Color
  | white
  | black
deriving DecidableEq

/-- The opposite color; used to flip the turn pointer. -/
def Color.other : Color → Color
  | .white => .black
  | .black => .white

/-- The `winner` field of a `game_over` message: "White", "Black" or
"Draw". -/
inductive Winner
  | white
  | black
  | draw
deriving DecidableEq

/-- The `game_over` winner naming a color. -/
def Color.toWinner : Color → Winner
  | .white => Winner.white
  | .black => Winner.black

/-- Modelled from the spec: session status
`InProgress | Checkmate(winnerColor) | Stalemate | Resigned | Disconnected`
(spec sections 3 and 4.4). -/
inductive SessionStatus
  | inProgress
  | checkmate (winner : Color)
  | stalemate
  | resigned (resigner : Color)
  | disconnected (remaining : Color)
deriving DecidableEq

/-- A `MoveRequest` `{from, to, promotion?}` (spec section 3). -/
structure MoveReq where
  fromSq : Sq
  toSq : Sq
  promotion : Option String
deriving DecidableEq

/-- Modelled from the spec: a `GameSession`'s mutable state — authoritative
`boardState` (an abstract board type), `turn` pointer, ordered `moveLog`
and termination `status` (spec section 3). -/
structure GameSession (β : Type) where
  boardState : β
  turn : Color
  moveLog : List MoveReq
  status : SessionStatus
deriving DecidableEq

/-- The report of a successful Rules Adapter `applyMove` (spec section
4.3): the new state plus the check/checkmate/stalemate flags. -/
structure ApplyReport (β : Type) where
  newState : β
  isCheck : Bool
  isCheckmate : Bool
  isStalemate : Bool
deriving DecidableEq

/-- A Rules Adapter: `applyMove(state, move) -> Result<NewState,
IllegalMove>`, with `none` standing for `IllegalMove` (spec section 4.3).
It returns a new state value and never mutates the caller's state. -/
def RulesAdapter (β : Type) : Type := β → MoveReq → Option (ApplyReport β)

/-- The recoverable rejections of `submitMove` (spec sections 4.4 and 7). -/
inductive SubmitError
  | illegalMove
  | notYourTurn
  | sessionTerminated
deriving DecidableEq

/-- What `submitMove` reports back: a rejection to the sender only, a
broadcast of the applied move with its check flag, or the applied move
together with a `game_over` broadcast naming the winner. -/
inductive SubmitOutcome (β : Type)
  | rejected (e : SubmitError)
  | applied (mv : MoveReq) (isCheck : Bool)
  | gameOver (mv : MoveReq) (winner : Winner)
deriving DecidableEq

/-- Modelled from the spec: `submitMove(connHandle, moveRequest)` (spec
section 4.4.1), identifying the submitting connection by its color. Guards:
terminal states are absorbing ("no further moves accepted", so a session
not `InProgress` rejects with `SessionTerminated`), and a submitter other
than `turn` rejects with `NotYourTurn`. Otherwise the Rules Adapter is
called: on `IllegalMove` nothing changes; on success the move is appended
to `moveLog`, `boardState` is replaced, `turn` flips, and a checkmate or
stalemate report moves the session to the corresponding terminal state
with a `game_over` naming the mover (or a draw). -/
def submitMove (adapter : RulesAdapter β) (s : GameSession β) (submitter : Color)
    (mv : MoveReq) : GameSession β × SubmitOutcome β :=
  if s.status ≠ SessionStatus.inProgress then (s, .rejected .sessionTerminated)
  else if submitter ≠ s.turn then (s, .rejected .notYourTurn)
  else
    match adapter s.boardState mv with
    | none => (s, .rejected .illegalMove)
    | some rep =>
      let s' : GameSession β :=
        { boardState := rep.newState, turn := s.turn.other,
          moveLog := s.moveLog ++ [mv], status := SessionStatus.inProgress }
      if rep.isCheckmate then
        ({ s' with status := SessionStatus.checkmate s.turn },
          .gameOver mv s.turn.toWinner)
      else if rep.isStalemate then
        ({ s' with status := SessionStatus.stalemate }, .gameOver mv Winner.draw)
      else (s', .applied mv rep.isCheck)

/-- A fresh session as created by pairing: White to move, empty move log,
in progress (spec section 3). -/
def initialSession (b0 : β) : GameSession β :=
  { boardState := b0, turn := Color.white, moveLog := [], status := SessionStatus.inProgress }

/-- Run a sequence of move submissions (each a submitter color with a move
request) against a fresh session, keeping only the session state. -/
def runSession (adapter : RulesAdapter β) (b0 : β)
    (steps : List (Color × MoveReq)) : GameSession β :=
  steps.foldl (fun s p => (submitMove adapter s p.1 p.2).1) (initialSession b0)

/-- The parity invariant of spec sections 3 and 8: the move log has even
length exactly when White is to move. -/
def turnParityInv (s : GameSession β) : Prop :=
  s.moveLog.length % 2 = 0 ↔ s.turn = Color.white

theorem turnParityInv_submitMove (adapter : RulesAdapter β) (s : GameSession β)
    (submitter : Color) (mv : MoveReq) (hinv : turnParityInv s) :
    turnParityInv (submitMove adapter s submitter mv).1 := by
  unfold submitMove
  by_cases hst : s.status ≠ SessionStatus.inProgress
  · simpa [hst] using hinv
  · simp only [hst, if_false]
    by_cases hturn : submitter ≠ s.turn
    · simpa [hturn] using hinv
    · simp only [hturn, if_false]
      cases had : adapter s.boardState mv with
      | none => simpa using hinv
      | some rep =>
        simp only []
        unfold turnParityInv at hinv ⊢
        cases hcm : rep.isCheckmate <;> cases hsm : rep.isStalemate <;>
          cases hc : s.turn <;>
          simp_all [Color.other, List.length_append, Nat.succ_mod_two_eq_zero_iff]

/-- C2: in every state reachable by a sequence of move submissions from a
fresh session (legal moves included), the move log has even length exactly
when it is White's turn: the log's parity always agrees with the turn
pointer. -/
theorem runSession_turnParityInv (adapter : RulesAdapter β) (b0 : β)
    (steps : List (Color × MoveReq)) :
    turnParityInv (runSession adapter b0 steps) := by
  suffices h : ∀ (s : GameSession β), turnParityInv s →
      turnParityInv (steps.foldl (fun s p => (submitMove adapter s p.1 p.2).1) s) by
    exact h (initialSession b0) (by simp [turnParityInv, initialSession])
  induction steps with
  | nil => intro s hs; simpa using hs
  | cons p rest ih =>
    intro s hs
    exact ih _ (turnParityInv_submitMove adapter s p.1 p.2 hs)

/-- C3: an in-progress session rejects a move submitted by the side not
recorded in `turn` with `NotYourTurn`, leaving the whole session state —
board included — unchanged. -/
theorem submitMove_notYourTurn (adapter : RulesAdapter β) (s : GameSession β)
    (submitter : Color) (mv : MoveReq)
    (hst : s.status = SessionStatus.inProgress) (hturn : submitter ≠ s.turn) :
    submitMove adapter s submitter mv = (s, .rejected .notYourTurn) := by
  unfold submitMove
  simp [hst, hturn]

/-- A Rules Adapter over `Nat` boards that accepts every move quietly:
no check, no checkmate, no stalemate. -/
def quietAdapter : RulesAdapter Nat := fun b _ => some ⟨b + 1, false, false, false⟩

/-- C3 witness: on a fresh session (White to move), Black's e2-e4
submission is rejected with `NotYourTurn` and the session is untouched. -/
theorem submitMove_notYourTurn_witness :
    submitMove quietAdapter (initialSession 0) Color.black ⟨⟨101, 2⟩, ⟨101, 4⟩, none⟩
      = (initialSession 0, .rejected .notYourTurn) :=
  submitMove_notYourTurn quietAdapter (initialSession 0) Color.black
    ⟨⟨101, 2⟩, ⟨101, 4⟩, none⟩ rfl (by decide)

/-- Terminal states are absorbing (spec section 4.4): a session whose
status is not `InProgress` rejects every move submission with
`SessionTerminated` and stays unchanged. -/
theorem submitMove_terminal_rejected (adapter : RulesAdapter β) (s : GameSession β)
    (c : Color) (mv : MoveReq) (hst : s.status ≠ SessionStatus.inProgress) :
    submitMove adapter s c mv = (s, .rejected .sessionTerminated) := by
  unfold submitMove
  simp [hst]

/-- C4: when the Rules Adapter reports checkmate for an applied move, the
`game_over` outcome names the mover (the side not to move afterwards) as
winner; when it reports stalemate, the outcome is a draw; and after either,
every further submission on the session is rejected with
`SessionTerminated`. -/
theorem submitMove_gameOver_terminal (adapter : RulesAdapter β) (s : GameSession β)
    (mv : MoveReq) (rep : ApplyReport β)
    (hst : s.status = SessionStatus.inProgress)
    (had : adapter s.boardState mv = some rep) :
    (rep.isCheckmate = true →
      (submitMove adapter s s.turn mv).2 = .gameOver mv s.turn.toWinner ∧
      ∀ (c : Color) (mv2 : MoveReq),
        submitMove adapter (submitMove adapter s s.turn mv).1 c mv2
          = ((submitMove adapter s s.turn mv).1, .rejected .sessionTerminated)) ∧
    (rep.isCheckmate = false → rep.isStalemate = true →
      (submitMove adapter s s.turn mv).2 = .gameOver mv Winner.draw ∧
      ∀ (c : Color) (mv2 : MoveReq),
        submitMove adapter (submitMove adapter s s.turn mv).1 c mv2
          = ((submitMove adapter s s.turn mv).1, .rejected .sessionTerminated)) := by
  constructor
  · intro hcm
    have h1 : (submitMove adapter s s.turn mv).1.status = SessionStatus.checkmate s.turn := by
      unfold submitMove
      simp [hst, had, hcm]
    constructor
    · unfold submitMove
      simp [hst, had, hcm]
    · intro c mv2
      exact submitMove_terminal_rejected adapter _ c mv2 (by simp [h1])
  · intro hcm hsm
    have h1 : (submitMove adapter s s.turn mv).1.status = SessionStatus.stalemate := by
      unfold submitMove
      simp [hst, had, hcm, hsm]
    constructor
    · unfold submitMove
      simp [hst, had, hcm, hsm]
    · intro c mv2
      exact submitMove_terminal_rejected adapter _ c mv2 (by simp [h1])

/-- A Rules Adapter over `Nat` boards reporting every move as checkmate. -/
def checkmateAdapter : RulesAdapter Nat := fun b _ => some ⟨b + 1, false, true, false⟩

/-- A Rules Adapter over `Nat` boards reporting every move as stalemate. -/
def stalemateAdapter : RulesAdapter Nat := fun b _ => some ⟨b + 1, false, false, true⟩

/-- C4 witness: White's first move reaching checkmate yields a `game_over`
naming White, a further submission by Black is rejected with
`SessionTerminated`, and a stalemating move yields a draw. -/
theorem submitMove_gameOver_terminal_witness :
    (submitMove checkmateAdapter (initialSession 0) Color.white
        ⟨⟨101, 2⟩, ⟨101, 4⟩, none⟩).2
      = .gameOver ⟨⟨101, 2⟩, ⟨101, 4⟩, none⟩ Color.white.toWinner ∧
    submitMove checkmateAdapter
        (submitMove checkmateAdapter (initialSession 0) Color.white
          ⟨⟨101, 2⟩, ⟨101, 4⟩, none⟩).1
        Color.black ⟨⟨101, 7⟩, ⟨101, 5⟩, none⟩
      = ((submitMove checkmateAdapter (initialSession 0) Color.white
          ⟨⟨101, 2⟩, ⟨101, 4⟩, none⟩).1, .rejected .sessionTerminated) ∧
    (submitMove stalemateAdapter (initialSession 0) Color.white
        ⟨⟨101, 2⟩, ⟨101, 4⟩, none⟩).2
      = .gameOver ⟨⟨101, 2⟩, ⟨101, 4⟩, none⟩ Winner.draw := by
  have hc := submitMove_gameOver_terminal checkmateAdapter (initialSession 0)
    ⟨⟨101, 2⟩, ⟨101, 4⟩, none⟩ ⟨1, false, true, false⟩ rfl rfl
  have hs := submitMove_gameOver_terminal stalemateAdapter (initialSession 0)
    ⟨⟨101, 2⟩, ⟨101, 4⟩, none⟩ ⟨1, false, false, true⟩ rfl rfl
  exact ⟨(hc.1 rfl).1, (hc.1 rfl).2 Color.black ⟨⟨101, 7⟩, ⟨101, 5⟩, none⟩,
    (hs.2 rfl rfl).1⟩

/-! ### C5: quick-match pairing -/

/-- Modelled from the spec: the Matchmaking Queue's quick-match state — the
FIFO waiting list plus the sessions created so far, each as a (first
waiting, new arrival) pair (spec section 4.2). -/
structure MatchState (H : Type) where
  quickQueue : List H
  paired : List (H × H)
deriving DecidableEq

/-- Modelled from the spec: `enqueueQuickMatch(handle)` (spec section 4.2):
if another handle is already waiting, the first waiting connection is
paired with the new arrival into a Game Session; otherwise the handle
becomes the sole waiter. -/
def enqueueQuickMatch (st : MatchState H) (h : H) : MatchState H :=
  match st.quickQueue with
  | [] => { st with quickQueue := [h] }
  | w :: rest => { quickQueue := rest, paired := st.paired ++ [(w, h)] }

/-- C5: quick-match pairing is first-come-first-served — with nobody
waiting, the new handle becomes the sole waiter; with someone waiting, the
longest-waiting handle is paired with the new arrival; and for waiters A
then B then C from an empty queue, A pairs with B on B's arrival and C
waits alone. -/
theorem enqueueQuickMatch_fifo (H : Type) (st : MatchState H) (h : H) (A B C : H) :
    (st.quickQueue = [] → enqueueQuickMatch st h = { st with quickQueue := [h] }) ∧
    (∀ w rest, st.quickQueue = w :: rest →
        enqueueQuickMatch st h
          = { quickQueue := rest, paired := st.paired ++ [(w, h)] }) ∧
    ((enqueueQuickMatch ⟨[], []⟩ A).quickQueue = [A] ∧
      (enqueueQuickMatch (enqueueQuickMatch ⟨[], []⟩ A) B).paired = [(A, B)] ∧
      (enqueueQuickMatch (enqueueQuickMatch ⟨[], []⟩ A) B).quickQueue = [] ∧
      (enqueueQuickMatch (enqueueQuickMatch (enqueueQuickMatch ⟨[], []⟩ A) B) C).quickQueue
        = [C] ∧
      (enqueueQuickMatch (enqueueQuickMatch (enqueueQuickMatch ⟨[], []⟩ A) B) C).paired
        = [(A, B)]) := by
  refine ⟨?_, ?_, ?_⟩
  · intro h0
    unfold enqueueQuickMatch
    simp [h0]
  · intro w rest h0
    unfold enqueueQuickMatch
    simp [h0]
  · simp [enqueueQuickMatch]

/-- C5 witness: the statement at handles 0 (alone), then 1, 2, 3 from an
empty queue — 1 pairs with 2, and 3 waits alone. -/
theorem enqueueQuickMatch_fifo_witness :
    enqueueQuickMatch (⟨[], []⟩ : MatchState Nat) 0 = ⟨[0], []⟩ ∧
    (enqueueQuickMatch (enqueueQuickMatch (⟨[], []⟩ : MatchState Nat) 1) 2).paired
      = [(1, 2)] ∧
    (enqueueQuickMatch (enqueueQuickMatch (enqueueQuickMatch
      (⟨[], []⟩ : MatchState Nat) 1) 2) 3).quickQueue = [3] := by
  obtain ⟨h1, -, -, p2, -, q3, -⟩ := enqueueQuickMatch_fifo Nat ⟨[], []⟩ 0 1 2 3
  exact ⟨h1 rfl, p2, q3⟩

/-! ### C6, C7: private rooms -/

/-- Modelled from the spec: an open private room `{code, hostConnection,
guestConnection: optional}` (spec section 3). -/
structure Room (H : Type) where
  code : String
  host : H
  guest : Option H
deriving DecidableEq

/-- Modelled from the spec: the table of currently-open private rooms,
keyed by room code (spec sections 2 and 4.2). -/
structure RoomTable (H : Type) where
  rooms : List (Room H)
deriving DecidableEq

/-- The codes of the currently-open rooms. -/
def openCodes (rt : RoomTable H) : List String := rt.rooms.map Room.code

/-- The uniqueness invariant of spec section 3: each open room's code is
unique among open rooms. -/
def codesNodup (rt : RoomTable H) : Prop := (openCodes rt).Nodup

/-- The failures of `joinRoom` (spec sections 4.2 and 7). -/
inductive JoinError
  | roomNotFound
  | roomFull
deriving DecidableEq

/-- What `joinRoom` reports: a failure, or the (host, guest) pair promoted
into a new Game Session. -/
inductive JoinResult (H : Type)
  | failed (e : JoinError)
  | paired (host guest : H)
deriving DecidableEq

/-- Look up the open room with the given code. -/
def findRoom (rt : RoomTable H) (code : String) : Option (Room H) :=
  rt.rooms.find? (fun r => decide (r.code = code))

/-- Modelled from the spec: `joinRoom(handle, code)` (spec section 4.2):
`RoomNotFound` if no open room has that code, `RoomFull` if a guest
already occupies it, otherwise host and guest are paired and the room
entry is removed from the open set. -/
def joinRoom (rt : RoomTable H) (g : H) (code : String) :
    RoomTable H × JoinResult H :=
  match findRoom rt code with
  | none => (rt, JoinResult.failed JoinError.roomNotFound)
  | some r =>
    match r.guest with
    | some _ => (rt, JoinResult.failed JoinError.roomFull)
    | none => (⟨rt.rooms.eraseP (fun r2 => decide (r2.code = code))⟩,
        JoinResult.paired r.host g)

/-- C6: `joinRoom` fails with `RoomNotFound` on an unknown code and with
`RoomFull` when a guest already occupies the room, both without touching
the table; on success it pairs host and guest and removes the room entry
exactly once — the open set shrinks by one and (codes being unique) no
open room with that code remains. -/
theorem joinRoom_spec (H : Type) (rt : RoomTable H) (g : H) (code : String) :
    (findRoom rt code = none →
        joinRoom rt g code = (rt, JoinResult.failed JoinError.roomNotFound)) ∧
    (∀ (r : Room H) (g0 : H), findRoom rt code = some r → r.guest = some g0 →
        joinRoom rt g code = (rt, JoinResult.failed JoinError.roomFull)) ∧
    (∀ (r : Room H), findRoom rt code = some r → r.guest = none →
        joinRoom rt g code
            = (⟨rt.rooms.eraseP (fun r2 => decide (r2.code = code))⟩,
                JoinResult.paired r.host g) ∧
          (joinRoom rt g code).1.rooms.length + 1 = rt.rooms.length ∧
          (codesNodup rt → findRoom (joinRoom rt g code).1 code = none)) := by
  refine ⟨?_, ?_, ?_⟩
  · intro h0
    unfold joinRoom
    simp [h0]
  · intro r g0 hfind hguest
    unfold joinRoom
    simp [hfind, hguest]
  · intro r hfind hguest
    have hjoin : joinRoom rt g code
        = (⟨rt.rooms.eraseP (fun r2 => decide (r2.code = code))⟩,
            JoinResult.paired r.host g) := by
      unfold joinRoom
      simp [hfind, hguest]
    have hfind2 : rt.rooms.find? (fun r2 : Room H => decide (r2.code = code)) = some r :=
      hfind
    have hmem : r ∈ rt.rooms := List.mem_of_find?_eq_some hfind2
    have hpr0 := List.find?_some hfind2
    have hpr : (fun r2 : Room H => decide (r2.code = code)) r = true := hpr0
    refine ⟨hjoin, ?_, ?_⟩
    · rw [hjoin]
      exact List.length_eraseP_add_one hmem hpr
    · intro hnd
      rw [hjoin]
      obtain ⟨a, l₁, l₂, hl₁, hpa, heq, herase⟩ :=
        @List.exists_of_eraseP (Room H) (fun r2 => decide (r2.code = code))
          rt.rooms r hmem hpr
      unfold findRoom
      simp only [herase]
      rw [List.find?_eq_none]
      intro x hx hpx
      have hxcode : x.code = code := by simpa using hpx
      have hacode : a.code = code := by simpa using hpa
      rcases List.mem_append.mp hx with hx1 | hx2
      · exact hl₁ x hx1 hpx
      · have hmid : a.code ∉ l₁.map Room.code ∧ a.code ∉ l₂.map Room.code := by
          have hnd2 : (l₁.map Room.code ++ a.code :: l₂.map Room.code).Nodup := by
            have : openCodes rt = l₁.map Room.code ++ a.code :: l₂.map Room.code := by
              simp [openCodes, heq]
            rw [codesNodup, this] at hnd
            exact hnd
          rw [List.nodup_middle, List.nodup_cons] at hnd2
          simpa using hnd2.1
        exact hmid.2 (by
          rw [hacode, ← hxcode]
          exact List.mem_map_of_mem Room.code hx2)

/-- C6 witness: in a table holding the single room "ab" hosted by 5, a join
with code "zz" fails with `RoomNotFound`; with a guest 7 already in, a join
of "ab" fails with `RoomFull`; and guest 9 joining "ab" pairs (5, 9),
leaving no open room with code "ab". -/
theorem joinRoom_spec_witness :
    joinRoom (⟨[⟨"ab", 5, none⟩]⟩ : RoomTable Nat) 9 "zz"
        = (⟨[⟨"ab", 5, none⟩]⟩, JoinResult.failed JoinError.roomNotFound) ∧
    joinRoom (⟨[⟨"ab", 5, some 7⟩]⟩ : RoomTable Nat) 9 "ab"
        = (⟨[⟨"ab", 5, some 7⟩]⟩, JoinResult.failed JoinError.roomFull) ∧
    joinRoom (⟨[⟨"ab", 5, none⟩]⟩ : RoomTable Nat) 9 "ab"
        = (⟨([⟨"ab", 5, none⟩] : List (Room Nat)).eraseP
              (fun r2 => decide (r2.code = "ab"))⟩,
            JoinResult.paired 5 9) ∧
    findRoom (joinRoom (⟨[⟨"ab", 5, none⟩]⟩ : RoomTable Nat) 9 "ab").1 "ab" = none := by
  obtain ⟨hnf, -, -⟩ := joinRoom_spec Nat (⟨[⟨"ab", 5, none⟩]⟩ : RoomTable Nat) 9 "zz"
  obtain ⟨-, hfull, -⟩ := joinRoom_spec Nat (⟨[⟨"ab", 5, some 7⟩]⟩ : RoomTable Nat) 9 "ab"
  obtain ⟨-, -, hok⟩ := joinRoom_spec Nat (⟨[⟨"ab", 5, none⟩]⟩ : RoomTable Nat) 9 "ab"
  have h3 := hok ⟨"ab", 5, none⟩ (by decide) rfl
  exact ⟨hnf (by decide), hfull ⟨"ab", 5, some 7⟩ 7 (by decide) rfl,
    h3.1, h3.2.2 (by unfold codesNodup openCodes; decide)⟩

/-- Modelled from the spec: room-code generation with a uniqueness retry
loop (spec sections 4.2 and 9): the generator's candidate codes (a
client-suggested code followed by retries) are tried in order until one
collides with no currently-open room code. -/
def freshCode (candidates : List String) (rt : RoomTable H) : Option String :=
  candidates.find? (fun c => !(openCodes rt).contains c)

/-- Modelled from the spec: `createRoom(handle) -> code` (spec section
4.2): generate a collision-free code (treating collisions as a retry over
the candidate stream, not trusting the client's suggestion), store the
handle as host with an empty guest slot, and return the code. If every
candidate collides the table is left unchanged (the loop keeps retrying;
no room is stored). -/
def createRoom (candidates : List String) (h : H) (rt : RoomTable H) :
    RoomTable H × Option String :=
  match freshCode candidates rt with
  | none => (rt, none)
  | some c => (⟨rt.rooms ++ [⟨c, h, none⟩]⟩, some c)

/-- The Matchmaking Queue operations that touch the room table. -/
inductive RoomOp (H : Type)
  | create (candidates : List String) (h : H)
  | joinReq (g : H) (code : String)

/-- The room-table effect of one operation. -/
def applyRoomOp (rt : RoomTable H) : RoomOp H → RoomTable H
  | .create cands h => (createRoom cands h rt).1
  | .joinReq g code => (joinRoom rt g code).1

/-- All states reachable from the empty room table. -/
def runRoomOps (ops : List (RoomOp H)) : RoomTable H :=
  ops.foldl applyRoomOp ⟨[]⟩

theorem freshCode_not_mem (candidates : List String) (rt : RoomTable H) (c : String)
    (h : freshCode candidates rt = some c) : c ∉ openCodes rt := by
  have hc := List.find?_some h
  simp only [Bool.not_eq_eq_eq_not, Bool.not_true] at hc
  intro hmem
  have h2 : (openCodes rt).contains c = true := List.elem_iff.mpr hmem
  rw [hc] at h2
  exact Bool.noConfusion h2

theorem codesNodup_createRoom (candidates : List String) (h : H) (rt : RoomTable H)
    (hnd : codesNodup rt) : codesNodup (createRoom candidates h rt).1 := by
  unfold createRoom
  cases hfc : freshCode candidates rt with
  | none => simpa using hnd
  | some c =>
    have hnot : c ∉ openCodes rt := freshCode_not_mem candidates rt c hfc
    unfold codesNodup openCodes at hnd ⊢
    simp only [List.map_append, List.map_cons, List.map_nil, List.nodup_append]
    exact ⟨hnd, List.nodup_singleton c, by simpa [List.Disjoint, openCodes] using hnot⟩

theorem joinRoom_fst_cases (rt : RoomTable H) (g : H) (code : String) :
    (joinRoom rt g code).1 = rt ∨
    (joinRoom rt g code).1
      = ⟨rt.rooms.eraseP (fun r2 => decide (r2.code = code))⟩ := by
  unfold joinRoom
  cases hf : findRoom rt code with
  | none => simp
  | some r =>
    cases hg : r.guest with
    | some g0 => simp [hg]
    | none => simp [hg]

theorem codesNodup_joinRoom (g : H) (code : String) (rt : RoomTable H)
    (hnd : codesNodup rt) : codesNodup (joinRoom rt g code).1 := by
  rcases joinRoom_fst_cases rt g code with hcase | hcase <;> rw [hcase]
  · exact hnd
  · exact List.Nodup.sublist
      (List.Sublist.map Room.code (List.eraseP_sublist rt.rooms)) hnd

/-- C7: room codes stay unique. Every state reachable from the empty table
by `createRoom`/`joinRoom` operations has pairwise-distinct open room
codes, and `createRoom` never stores a code equal to an already-open one:
whatever code it returns was absent from the open set (collisions are
retried past, not trusted). -/
theorem roomCodes_unique (H : Type) (ops : List (RoomOp H)) :
    codesNodup (runRoomOps ops) ∧
    ∀ (cands : List String) (h : H) (rt : RoomTable H) (c : String),
      (createRoom cands h rt).2 = some c → c ∉ openCodes rt := by
  constructor
  · suffices hstep : ∀ (rt : RoomTable H), codesNodup rt →
        codesNodup (ops.foldl applyRoomOp rt) by
      exact hstep ⟨[]⟩ (by simp [codesNodup, openCodes])
    induction ops with
    | nil => intro rt h; simpa using h
    | cons op rest ih =>
      intro rt h
      refine ih _ ?_
      cases op with
      | create cands hh => exact codesNodup_createRoom cands hh rt h
      | joinReq g code => exact codesNodup_joinRoom g code rt h
  · intro cands h rt c hcr
    unfold createRoom at hcr
    cases hfc : freshCode cands rt with
    | none => simp [hfc] at hcr
    | some c2 =>
      have : c2 = c := by simpa [hfc] using hcr
      subst this
      exact freshCode_not_mem cands rt c2 hfc

/-- C7 witness: creating a room with candidate stream ["ab"] from the empty
table, then another with stream ["ab", "cd"], yields distinct open codes
(the collision on "ab" is retried past to "cd"); and the second creation's
returned code "cd" was not previously open. -/
theorem roomCodes_unique_witness :
    codesNodup (runRoomOps [RoomOp.create ["ab"] 0, RoomOp.create ["ab", "cd"] 1]) ∧
    ("cd" ∉ openCodes (⟨[⟨"ab", 0, none⟩]⟩ : RoomTable Nat)) := by
  have h := roomCodes_unique Nat [RoomOp.create ["ab"] 0, RoomOp.create ["ab", "cd"] 1]
  exact ⟨h.1, h.2 ["ab", "cd"] 1 ⟨[⟨"ab", 0, none⟩]⟩ "cd" (by decide)⟩
